import Mathlib

/-!
Verification development for the STM32 package-manager discovery engine
(`src/packageManager.ts`).  The engine inspects a directory tree, decides
which subdirectories represent boards and importable projects, extracts
metadata (board display name, MCU family, preview image, toolchains) and
resolves a chosen project's source path.

The filesystem is modelled as a finite tree (`FsTree`); directory listings
are the entry lists in declaration order, matching what `fs.readdir`
returns.  A file's content is `Option String`, where `none` models a file
whose read fails (the per-file error paths in the source).  JavaScript
strings are modelled as `List Char` with ASCII case mapping, which covers
every string operation the engine performs.
-/

namespace PkgMgr

/-- ASCII lower-casing of one character, modelling `toLowerCase` as the
engine applies it to directory-entry names and patterns. -/
def lowerChar (c : Char) : Char :=
  match c with
  | 'A' => 'a' | 'B' => 'b' | 'C' => 'c' | 'D' => 'd' | 'E' => 'e'
  | 'F' => 'f' | 'G' => 'g' | 'H' => 'h' | 'I' => 'i' | 'J' => 'j'
  | 'K' => 'k' | 'L' => 'l' | 'M' => 'm' | 'N' => 'n' | 'O' => 'o'
  | 'P' => 'p' | 'Q' => 'q' | 'R' => 'r' | 'S' => 's' | 'T' => 't'
  | 'U' => 'u' | 'V' => 'v' | 'W' => 'w' | 'X' => 'x' | 'Y' => 'y'
  | 'Z' => 'z' | d => d

/-- ASCII upper-casing of one character, modelling `toUpperCase`. -/
def upperChar (c : Char) : Char :=
  match c with
  | 'a' => 'A' | 'b' => 'B' | 'c' => 'C' | 'd' => 'D' | 'e' => 'E'
  | 'f' => 'F' | 'g' => 'G' | 'h' => 'H' | 'i' => 'I' | 'j' => 'J'
  | 'k' => 'K' | 'l' => 'L' | 'm' => 'M' | 'n' => 'N' | 'o' => 'O'
  | 'p' => 'P' | 'q' => 'Q' | 'r' => 'R' | 's' => 'S' | 't' => 'T'
  | 'u' => 'U' | 'v' => 'V' | 'w' => 'W' | 'x' => 'X' | 'y' => 'Y'
  | 'z' => 'Z' | d => d

def lowerList (s : List Char) : List Char := s.map lowerChar

def lowerStr (s : String) : String := ⟨lowerList s.data⟩

/-- `startsWithL s p` holds when `p` is an initial segment of `s`. -/
def startsWithL : List Char → List Char → Bool
  | _, [] => true
  | [], _ :: _ => false
  | a :: as, b :: bs => a = b && startsWithL as bs

/-- `endsWithL s p`: `p` is a final segment of `s` (JS `endsWith`). -/
def endsWithL (s p : List Char) : Bool := startsWithL s.reverse p.reverse

/-- `containsSub s p`: `p` occurs contiguously inside `s` (JS `includes`). -/
def containsSub : List Char → List Char → Bool
  | [], pat => pat.isEmpty
  | a :: rest, pat => startsWithL (a :: rest) pat || containsSub rest pat

def strEndsWith (s p : String) : Bool := endsWithL s.data p.data

def strContains (s p : String) : Bool := containsSub s.data p.data

/-- The filesystem: a file (with `none` content when reading it fails) or a
directory listing its entries in `readdir` order. -/
inductive FsTree where
  | file (content : Option String) : FsTree
  | dir (entries : List (String × FsTree)) : FsTree

/-- Directory listing; a file yields `[]`, matching the engine's
catch-all handlers that turn a failed `readdir` into an empty result. -/
def FsTree.entriesD : FsTree → List (String × FsTree)
  | .dir es => es
  | .file _ => []

def FsTree.isDir : FsTree → Bool
  | .dir _ => true
  | .file _ => false

/-- Resolve a relative path (list of segments) inside a tree. -/
def findEntry : List (String × FsTree) → String → Option FsTree
  | [], _ => none
  | (n, t) :: rest, p => if n = p then some t else findEntry rest p

def FsTree.lookup : List String → FsTree → Option FsTree
  | [], t => some t
  | _ :: _, .file _ => none
  | p :: ps, .dir es =>
    match findEntry es p with
    | some t => FsTree.lookup ps t
    | none => none

/-- `fs.pathExists`. -/
def pathExists (t : FsTree) (p : List String) : Bool :=
  (FsTree.lookup p t).isSome

/-- `fs.readFile(..., 'utf8')`, with the error cases the engine can hit. -/
def readFileAt (t : FsTree) (p : List String) : Except String String :=
  match FsTree.lookup p t with
  | some (.file (some c)) => Except.ok c
  | some (.file none) => Except.error "Error: EACCES: permission denied, read"
  | some (.dir _) => Except.error "Error: EISDIR: illegal operation on a directory, read"
  | none => Except.error "Error: ENOENT: no such file or directory"

/-- `PackageInfo` record of the engine; `path` is a list of path segments. -/
structure PackageInfo where
  name : String
  version : String
  path : List String
  description : Option String
deriving Repr, DecidableEq

/-- `BoardInfo` record of the engine. -/
structure BoardInfo where
  id : String
  name : String
  description : String
  imagePath : Option (List String)
  mcu : String
deriving Repr, DecidableEq

/-- `ProjectInfo` record of the engine. -/
structure ProjectInfo where
  name : String
  description : String
  path : List String
  toolchain : List String
deriving Repr, DecidableEq

/-- The `projectIndicators` array of `hasProjectFiles`. -/
def projectIndicators : List String :=
  [".uvprojx", ".eww", ".ewp", ".cproject", "Makefile", ".ioc",
   "main.c", "main.cpp", "Inc/", "Src/", "Core/"]

/-- One indicator test of `hasProjectFiles`:
`file.includes(ind) || file.endsWith(ind) ||
 file.toLowerCase().includes(ind.toLowerCase())`. -/
def indMatches (file ind : String) : Bool :=
  strContains file ind || strEndsWith file ind ||
    containsSub (lowerList file.data) (lowerList ind.data)

/-- `hasProjectFiles`: some immediate entry name matches some indicator.
A failed `readdir` (probing a plain file) yields `false` via `entriesD`. -/
def hasProjectFiles (t : FsTree) : Bool :=
  (t.entriesD.map Prod.fst).any fun f => projectIndicators.any fun ind => indMatches f ind

/-- `hasProjectsInCategory`: among the first 3 subdirectories of the
category directory, some passes `hasProjectFiles`. -/
def hasProjectsInCategory (t : FsTree) : Bool :=
  if (t.entriesD.filter fun e => e.2.isDir).isEmpty then false
  else ((t.entriesD.filter fun e => e.2.isDir).take 3).any fun e => hasProjectFiles e.2

/-- The recognized category folder names of board directories. -/
def boardCategories : List String :=
  ["Examples", "Applications", "Demonstrations", "Templates"]

/-- `hasProjectsInDirectory`: the board candidate has a recognized category
subdirectory, and among the first 2 of those some category contains
projects. -/
def hasProjectsInDirectory (t : FsTree) : Bool :=
  if (t.entriesD.filter fun e => e.2.isDir && boardCategories.contains e.1).isEmpty
  then false
  else ((t.entriesD.filter fun e => e.2.isDir && boardCategories.contains e.1).take 2).any
    fun e => hasProjectsInCategory e.2

/-- Atom of the tiny regular-expression language produced by
`new RegExp(pattern.replace(/\*/g, '.*'), 'i')`: a literal character
(already lower-cased, for the `i` flag) or `.` (any character). -/
inductive RAtom where
  | any : RAtom
  | lit (c : Char) : RAtom
deriving Repr, DecidableEq

/-- Token: a single atom, or an atom under a Kleene star. -/
inductive RTok where
  | one (a : RAtom) : RTok
  | star (a : RAtom) : RTok
deriving Repr, DecidableEq

def atomMatch : RAtom → Char → Bool
  | .any, _ => true
  | .lit c, d => c = lowerChar d

def mkAtom (c : Char) : RAtom :=
  if c = '.' then RAtom.any else RAtom.lit (lowerChar c)

/-- Compile the replaced pattern text into tokens ('.' is any-char, a
following '*' stars the previous atom; other characters are literals). -/
def compilePat : List Char → List RTok
  | [] => []
  | c :: '*' :: rest2 => RTok.star (mkAtom c) :: compilePat rest2
  | c :: rest => RTok.one (mkAtom c) :: compilePat rest

/-- `matchPre ts s`: the token list matches some initial segment of `s`
(the regex engine's match attempt at a fixed start position; trailing
characters are allowed because `test` is unanchored).  A starred atom
matches by consuming some number `k` of characters that each match the
atom and letting the remaining tokens match the rest — the standard
existence semantics of `a*`. -/
def matchPre : List RTok → List Char → Bool
  | [], _ => true
  | RTok.one a :: ts2, s =>
    match s with
    | [] => false
    | c :: cs => atomMatch a c && matchPre ts2 cs
  | RTok.star a :: ts2, s =>
    (List.range (s.length + 1)).any fun k =>
      ((s.take k).all fun c => atomMatch a c) && matchPre ts2 (s.drop k)

/-- `RegExp.prototype.test`: try a match at every start position. -/
def searchTok (ts : List RTok) (s : List Char) : Bool :=
  matchPre ts s ||
    (match s with
     | [] => false
     | _ :: cs => searchTok ts cs)

/-- `pattern.replace(/\*/g, '.*')`. -/
def starReplace : List Char → List Char
  | [] => []
  | '*' :: rest => '.' :: '*' :: starReplace rest
  | c :: rest => c :: starReplace rest

/-- `hasMatchingFile`: with a `*` in the pattern, unanchored
case-insensitive regex search over the entry names; otherwise exact
(case-sensitive) name equality. -/
def hasMatchingFile (t : FsTree) (pattern : String) : Bool :=
  let files := t.entriesD.map Prod.fst
  if pattern.data.contains '*' then
    files.any fun f => searchTok (compilePat (starReplace pattern.data)) f.data
  else
    files.any fun f => f = pattern

/-- The `toolchainFiles` table of `analyzeProjectDirectory`. -/
def toolchainFiles : List (String × String) :=
  [("*.uvprojx", "Keil"), ("*.eww", "IAR"), ("STM32*", "STM32CubeIDE"),
   ("Makefile", "GCC"), ("*.cproject", "Eclipse")]

/-- The toolchain-detection loop of `analyzeProjectDirectory`, including
the `Generic` fallback that keeps the list nonempty. -/
def detectToolchains (t : FsTree) : List String :=
  if (toolchainFiles.filterMap fun tc =>
      if hasMatchingFile t tc.1 then some tc.2 else none).isEmpty
  then ["Generic"]
  else toolchainFiles.filterMap fun tc =>
    if hasMatchingFile t tc.1 then some tc.2 else none

/-- `.replace(/[-_]/g, ' ')`. -/
def dashesToSpaces (s : List Char) : List Char :=
  s.map fun c => if c = '-' || c = '_' then ' ' else c

/-- `.replace(/([A-Z])([A-Z][a-z])/g, '$1 $2')`: global scan; on a match
the three characters are consumed and scanning resumes after them. -/
def splitUpperRun : List Char → List Char
  | a :: b :: c :: rest =>
    if a.isUpper && b.isUpper && c.isLower then
      a :: ' ' :: b :: c :: splitUpperRun rest
    else
      a :: splitUpperRun (b :: c :: rest)
  | l => l

/-- `.replace(/([a-z])([A-Z])/g, '$1 $2')`. -/
def splitLowerUpper : List Char → List Char
  | a :: b :: rest =>
    if a.isLower && b.isUpper then
      a :: ' ' :: b :: splitLowerUpper rest
    else
      a :: splitLowerUpper (b :: rest)
  | l => l

def isWordChar (c : Char) : Bool :=
  c.isAlpha || c.isDigit || c = '_'

def isWsChar (c : Char) : Bool :=
  c = ' ' || c = '\t' || c = '\n' || c = '\r'

/-- `.replace(/\b\w/g, l => l.toUpperCase())`: upper-case every word
character that begins a word (`prev` records whether the previous
character was a word character). -/
def capWordsAux : List Char → Bool → List Char
  | [], _ => []
  | c :: rest, prev =>
    (if isWordChar c && !prev then upperChar c else c) ::
      capWordsAux rest (isWordChar c)

def capWords (s : List Char) : List Char := capWordsAux s false

/-- `.replace(/\s+/g, ' ')`: collapse every whitespace run to one space. -/
def collapseWsAux : List Char → Bool → List Char
  | [], _ => []
  | c :: rest, prev =>
    if isWsChar c then
      if prev then collapseWsAux rest true else ' ' :: collapseWsAux rest true
    else
      c :: collapseWsAux rest false

def collapseWs (s : List Char) : List Char := collapseWsAux s false

/-- `.trim()`. -/
def trimChars (s : List Char) : List Char :=
  ((s.dropWhile isWsChar).reverse.dropWhile isWsChar).reverse

/-- JS `String.prototype.replace` with a string pattern: replace the first
occurrence only. -/
def replaceFirst : List Char → List Char → List Char → List Char
  | [], _, _ => []
  | a :: rest, pat, rep =>
    if startsWithL (a :: rest) pat then rep ++ (a :: rest).drop pat.length
    else a :: replaceFirst rest pat rep

/-- `formatBoardName`: the display-name pipeline followed by the three
literal substitutions (each guarded by `includes`, each replacing the
first occurrence). -/
def formatBoardName (name : String) : String :=
  let s := trimChars (collapseWs (capWords (splitLowerUpper (splitUpperRun
    (dashesToSpaces name.data)))))
  let f1 := if containsSub s "NUCLEO".data then
    replaceFirst s "NUCLEO".data "NUCLEO-".data else s
  let f2 := if containsSub f1 "DISCO".data then
    replaceFirst f1 "DISCO".data "DISCOVERY".data else f1
  let f3 := if containsSub f2 "EVAL".data then
    replaceFirst f2 "EVAL".data "EVALUATION".data else f2
  ⟨f3⟩

/-- `formatProjectName`: dashes/underscores to spaces, then capitalize
word starts. -/
def formatProjectName (name : String) : String :=
  ⟨capWords (dashesToSpaces name.data)⟩

def imageExtensions : List String := [".png", ".jpg", ".jpeg", ".gif", ".bmp"]

def commonNames : List String := ["board", "image", "picture", "photo"]

def lastDotPos : List Char → Nat → Option Nat → Option Nat
  | [], _, acc => acc
  | c :: rest, i, acc =>
    lastDotPos rest (i + 1) (if c = '.' then some i else acc)

/-- Node's `path.extname` on a bare entry name: the substring from the
last dot, or empty when there is no dot or the name starts with it. -/
def extname (s : String) : String :=
  match lastDotPos s.data 0 none with
  | some i => if i = 0 then "" else ⟨s.data.drop i⟩
  | none => ""

/-- Node's `path.basename(file, ext)` where `ext` was just computed as the
extension of `file`: the name with that suffix removed. -/
def dropExt (s : String) : String :=
  match lastDotPos s.data 0 none with
  | some i => if i = 0 then s else ⟨s.data.take i⟩
  | none => s

/-- `findBoardImage`: the first entry whose (lower-cased) extension is an
image extension and whose (lower-cased) base name mentions one of the
common names or "board". -/
def findBoardImage (t : FsTree) (base : List String) : Option (List String) :=
  (t.entriesD.map Prod.fst).findSome? fun f =>
    let ext := lowerStr (extname f)
    let nm := lowerStr (dropExt f)
    if imageExtensions.contains ext &&
        (commonNames.any (fun n => strContains nm n) || strContains nm "board") then
      some (base ++ [f])
    else none

/-- Match of `/STM32[A-Z]\d+/i` anchored at the head of the list:
"stm32" case-insensitively, one ASCII letter, one or more digits
(greedy), returning the matched text. -/
def stm32At : List Char → Option (List Char)
  | c1 :: c2 :: c3 :: c4 :: c5 :: c6 :: rest =>
    if lowerChar c1 = 's' && lowerChar c2 = 't' && lowerChar c3 = 'm' &&
        c4 = '3' && c5 = '2' && (c6.isUpper || c6.isLower) then
      let digits := rest.takeWhile Char.isDigit
      if digits.isEmpty then none
      else some (c1 :: c2 :: c3 :: c4 :: c5 :: c6 :: digits)
    else none
  | _ => none

/-- `content.match(/STM32[A-Z]\d+/i)`: the first match in the text. -/
def findSTM32 : List Char → Option (List Char)
  | [] => none
  | c :: rest =>
    match stm32At (c :: rest) with
    | some m => some m
    | none => findSTM32 rest

/-- `extractMcuInfo`: scan the board directory's entries in listing order;
for each regular `.h`/`.ioc` file whose read succeeds, return the
upper-cased first `STM32…` match; unreadable files are skipped. -/
def extractMcuInfo (t : FsTree) : Option String :=
  t.entriesD.findSome? fun e =>
    match e.2 with
    | .dir _ => none
    | .file none => none
    | .file (some content) =>
      if strEndsWith e.1 ".h" || strEndsWith e.1 ".ioc" then
        (findSTM32 content.data).map fun m => (⟨m.map upperChar⟩ : String)
      else none

/-- `analyzeBoardDirectory`: qualify the candidate through
`hasProjectsInDirectory` (disqualified candidates yield `none`, dropped
silently by the caller), then build the board record.  The `mcu` field
defaults to `"STM32"` when extraction found nothing. -/
def analyzeBoardDirectory (t : FsTree) (dirPath : List String)
    (boardName : String) : Option BoardInfo :=
  if hasProjectsInDirectory t then
    let mcu := extractMcuInfo t
    let formatted := formatBoardName boardName
    some
      { id := boardName
        name := formatted
        description := "STM32 Development Board: " ++ formatted ++
          (match mcu with
           | some m => " (" ++ m ++ ")"
           | none => "")
        imagePath := findBoardImage t dirPath
        mcu := mcu.getD "STM32" }
  else none

/-- `scanForBoards`: analyze every immediate subdirectory, keeping the
non-null results. -/
def scanForBoards (t : FsTree) (base : List String) : List BoardInfo :=
  t.entriesD.filterMap fun e =>
    if e.2.isDir then analyzeBoardDirectory e.2 (base ++ [e.1]) e.1 else none

/-- The duplicate-removal step of `getAvailableBoards`:
`boards.filter((b, i, self) => i === self.findIndex(x => x.id === b.id))`. -/
def dedupById (l : List BoardInfo) : List BoardInfo :=
  (l.enum.filter fun p => l.findIdx (fun b => b.id = p.2.id) = p.1).map Prod.snd

def fallbackCategories : List String := ["Examples", "Applications", "Demonstrations"]

/-- `getAvailableBoards`: scan `Projects` when it exists, else scan each
existing fallback category root; deduplicate by board id.  All error
paths in the source degrade to an empty list. -/
def getAvailableBoards (fs : FsTree) : List BoardInfo :=
  dedupById
    (if pathExists fs ["Projects"] then
      match FsTree.lookup ["Projects"] fs with
      | some t => scanForBoards t ["Projects"]
      | none => []
    else
      fallbackCategories.flatMap fun c =>
        match FsTree.lookup [c] fs with
        | some t => scanForBoards t [c]
        | none => [])

/-- `analyzeProjectDirectory`: detect toolchains and build the project
record.  In the source this returns null only when an exception escapes,
which cannot happen in the model (every inner failure is already caught
inside `hasMatchingFile`). -/
def analyzeProjectDirectory (t : FsTree) (projectDir : List String)
    (projectName : String) : ProjectInfo :=
  { name := formatProjectName projectName
    description := "STM32 Project: " ++ formatProjectName projectName
    path := projectDir
    toolchain := detectToolchains t }

/-- `scanForProjects`: every immediate subdirectory becomes a project. -/
def scanForProjects (t : FsTree) (base : List String) : List ProjectInfo :=
  t.entriesD.filterMap fun e =>
    if e.2.isDir then some (analyzeProjectDirectory e.2 (base ++ [e.1]) e.1)
    else none

def projectCategories : List String :=
  ["Examples", "Applications", "Demonstrations", "Templates"]

/-- `getProjectsForBoard`: the board path is always
`packagePath/Projects/boardId`; when it does not exist the function
returns the empty list.  For each existing category folder the projects
found there are surfaced with the category prefixed to name and
description. -/
def getProjectsForBoard (fs : FsTree) (boardId : String) : List ProjectInfo :=
  if pathExists fs ["Projects", boardId] then
    projectCategories.flatMap fun cat =>
      match FsTree.lookup (["Projects", boardId] ++ [cat]) fs with
      | some catTree =>
        (scanForProjects catTree (["Projects", boardId] ++ [cat])).map fun p =>
          { p with
            name := cat ++ "/" ++ p.name
            description := cat ++ ": " ++ p.description }
      | none => []
  else []

/-- `findProjectSource`: probe, in order,
`Projects/boardId/projectName`, `Examples/boardId/projectName`,
`Applications/boardId/projectName`; first existing path wins. -/
def findProjectSource (fs : FsTree) (boardId projectName : String) :
    Option (List String) :=
  [["Projects", boardId, projectName],
   ["Examples", boardId, projectName],
   ["Applications", boardId, projectName]].find? fun p => pathExists fs p

/-- The source and destination handed to `fs.copy` by `importProject`,
together with the returned path (`target`). -/
structure ImportResult where
  source : List String
  target : List String
deriving Repr, DecidableEq

/-- `importProject(packagePath, boardId, projectName)` — the engine's
declared parameter list.  `dialogFolder` is the folder the user picks in
the open dialog the function itself shows (`none` = cancelled).  The
target path is always `dialogFolder/projectName`; the copy source is
always re-resolved through `findProjectSource`.  Errors are wrapped as
`Failed to import project: …`. -/
def importProject (fs : FsTree) (boardId projectName : String)
    (dialogFolder : Option (List String)) : Except String ImportResult :=
  match dialogFolder with
  | none => Except.error "Failed to import project: Error: No import location selected"
  | some folder =>
    let targetPath := folder ++ [projectName]
    match findProjectSource fs boardId projectName with
    | none =>
      Except.error ("Failed to import project: Error: Project " ++ projectName ++
        " not found for board " ++ boardId)
    | some src => Except.ok { source := src, target := targetPath }

/-- The call site in `packageImportPanel._importProject`, which invokes
`packageManager.importProject(packagePath, boardId, projectName,
location, targetName, projectPath)` with six arguments.  The engine
declares only three parameters, so JavaScript drops `location`,
`targetName` and `projectPath`; the model reflects that by ignoring
them. -/
def importProjectCall (fs : FsTree) (boardId projectName : String)
    (location : Option String) (targetName : Option String)
    (projectPath : Option (List String))
    (dialogFolder : Option (List String)) : Except String ImportResult :=
  importProject fs boardId projectName dialogFolder

/-- The attribute object `$` of an XML element as `xml2js` delivers it:
possibly absent (accessing `.name` on it then throws), with optional
`name`/`version` attributes. -/
structure XmlAttrs where
  name : Option String
  version : Option String
deriving Repr, DecidableEq

/-- An `xml2js` result node: its `$` attributes and its `description`
child array. -/
structure XmlNode where
  attrs : Option XmlAttrs
  description : List String
deriving Repr, DecidableEq

/-- A successful `parseString` result: `result.package` (if present) and
the result object itself. -/
structure XmlParsed where
  package : Option XmlNode
  root : XmlNode
deriving Repr, DecidableEq

/-- A parsed `package.json`: the three fields the engine reads. -/
structure JsonPkg where
  name : Option String
  version : Option String
  description : Option String
deriving Repr, DecidableEq

/-- The external parsers the engine consumes: `xml2js.parseString`
(`Except.error` models the `err` callback argument) and `JSON.parse`
(`none` models a thrown `SyntaxError`). -/
structure Parsers where
  xml : String → Except String XmlParsed
  json : String → Option JsonPkg

/-- `x || default` on a string-valued JS expression: the default is used
when the value is absent or the empty string. -/
def jsOrDefault (o : Option String) (d : String) : String :=
  match o with
  | some s => if s = "" then d else s
  | none => d

/-- `x?.[0] || undefined`: the first element, with an empty string
collapsing to undefined. -/
def jsFalsyOpt (o : Option String) : Option String :=
  match o with
  | some s => if s = "" then none else some s
  | none => none

/-- `path.basename` of a path given as segments. -/
def basenameOf (p : List String) : String := p.getLastD ""

/-- `findPackageDescriptor`: probe the four fixed names, then scan the
root listing for the first entry ending in `.pdsc`.  Returns the
descriptor's file name (the source returns the joined path). -/
def findPackageDescriptor (root : FsTree) : Option String :=
  match ["package.xml", "package.pdsc", ".pdsc", "package.json"].find?
      (fun f => pathExists root [f]) with
  | some f => some f
  | none => (root.entriesD.map Prod.fst).find? fun f => strEndsWith f ".pdsc"

/-- The extraction step of the XML branch of `parsePackageDescriptor`:
`result.package || result`, then read `$.name`/`$.version` and
`description?.[0]`.  When `$` is absent the member access throws and the
surrounding catch resolves with the directory-name fallback. -/
def extractPackageInfo (r : XmlParsed) (pkgPath : List String) : PackageInfo :=
  let node := r.package.getD r.root
  match node.attrs with
  | none =>
    { name := basenameOf pkgPath, version := "1.0.0", path := pkgPath,
      description := none }
  | some a =>
    { name := jsOrDefault a.name "Unknown Package"
      version := jsOrDefault a.version "1.0.0"
      path := pkgPath
      description := jsFalsyOpt node.description.head? }

/-- `parsePackageDescriptor` after the file content was read: dispatch on
the descriptor's extension.  An XML parse error (`parseString` calling
back with `err`) is rejected, i.e. propagated to the caller. -/
def parsePackageDescriptor (P : Parsers) (pkgPath : List String)
    (fileName content : String) : Except String PackageInfo :=
  if strEndsWith fileName ".json" then
    match P.json content with
    | none => Except.error "SyntaxError: Unexpected token in JSON"
    | some j =>
      Except.ok
        { name := jsOrDefault j.name "Unknown Package"
          version := jsOrDefault j.version "1.0.0"
          path := pkgPath
          description := j.description }
  else if strEndsWith fileName ".pdsc" || strEndsWith fileName ".xml" then
    match P.xml content with
    | Except.error e => Except.error e
    | Except.ok r => Except.ok (extractPackageInfo r pkgPath)
  else
    Except.ok
      { name := basenameOf pkgPath, version := "1.0.0", path := pkgPath,
        description := none }

/-- `analyzePackage`: find a descriptor and parse it; with no descriptor,
fall back to directory-name inference.  Any error on the way (listing
the root, reading the descriptor, JSON/XML parse errors) is wrapped as a
single `Failed to analyze package: …` error. -/
def analyzePackage (P : Parsers) (root : FsTree) (pkgPath : List String) :
    Except String PackageInfo :=
  match root with
  | .file _ => Except.error "Failed to analyze package: Error: ENOTDIR: not a directory"
  | .dir _ =>
    match findPackageDescriptor root with
    | some f =>
      (match readFileAt root [f] with
       | Except.error e => Except.error ("Failed to analyze package: " ++ e)
       | Except.ok content =>
         match parsePackageDescriptor P pkgPath f content with
         | Except.error e => Except.error ("Failed to analyze package: " ++ e)
         | Except.ok p => Except.ok p)
    | none =>
      Except.ok
        { name := basenameOf pkgPath
          version := "Unknown"
          path := pkgPath
          description := some ("STM32 Package: " ++ basenameOf pkgPath) }

/-! ### Concrete fixtures used by the counterexamples and witnesses -/

/-- An ordinary, readable, empty file. -/
def emptyFile : FsTree := FsTree.file (some "")

/-- A project candidate directory containing only `notes.txt` — no entry
matches any project-file indicator. -/
def fooDir : FsTree := FsTree.dir [("notes.txt", emptyFile)]

/-- A package whose only project candidate under
`Projects/B/Examples` is `fooDir`. -/
def fsC1 : FsTree :=
  FsTree.dir [("Projects", FsTree.dir [("B", FsTree.dir
    [("Examples", FsTree.dir [("Foo", fooDir)])])])]

/-- A package with no `Projects` root: board `B` sits under the fallback
root `Examples` and contains `Examples/P/main.c`. -/
def fsC2 : FsTree :=
  FsTree.dir [("Examples", FsTree.dir [("B", FsTree.dir
    [("Examples", FsTree.dir [("P", FsTree.dir [("main.c", emptyFile)])])])])]

/-- The board directory `Projects/B` of `fsC9`. -/
def bDir9 : FsTree :=
  FsTree.dir [("Examples", FsTree.dir [("P", FsTree.dir [("main.c", emptyFile)])])]

/-- A package with the standard layout `Projects/B/Examples/P/main.c` and
no `.h`/`.ioc` file anywhere under the board directory. -/
def fsC9 : FsTree := FsTree.dir [("Projects", FsTree.dir [("B", bDir9)])]

/-- The board record the engine produces for `B` in `fsC2` and `fsC9`. -/
def boardB : BoardInfo :=
  { id := "B", name := "B", description := "STM32 Development Board: B",
    imagePath := none, mcu := "STM32" }

/-- A board directory exercising the MCU scan: a non-`.h` file with a
match is ignored, an unreadable `.h` file is skipped, and the first
readable `.h` file with a match wins over a later `.ioc` file. -/
def mcuSample : FsTree :=
  FsTree.dir
    [("readme.txt", FsTree.file (some "STM32F4")),
     ("a.h", FsTree.file none),
     ("b.h", FsTree.file (some "// uses stm32u575zi device")),
     ("c.ioc", FsTree.file (some "STM32H743"))]

/-- Parsers whose XML parser always reports a parse error. -/
def parsersErr : Parsers :=
  { xml := fun _ => Except.error "Error: Non-whitespace before first tag."
    json := fun _ => none }

/-- Parsers whose XML parser succeeds but delivers a result without the
expected `package` element attributes. -/
def parsersBadShape : Parsers :=
  { xml := fun _ => Except.ok { package := none, root := { attrs := none, description := [] } }
    json := fun _ => none }

/-- A package root holding one descriptor file `package.xml`. -/
def fsDescr : FsTree := FsTree.dir [("package.xml", FsTree.file (some "<bad"))]

/-- A package containing the project `Projects/B/P`. -/
def fsImp : FsTree :=
  FsTree.dir [("Projects", FsTree.dir [("B", FsTree.dir
    [("P", FsTree.dir [("main.c", emptyFile)])])])]

/-- A package where only `Else/Proj` exists: none of the three probe
locations for board `B`, project `P` is present, while the panel's
explicitly passed source path `Else/Proj` does exist. -/
def fsImp2 : FsTree :=
  FsTree.dir [("Else", FsTree.dir [("Proj", FsTree.dir [("main.c", emptyFile)])])]

/-- A category directory whose single project candidate contains only the
subdirectories `Inc`, `Src`, `Core`. -/
def catOnlyDirs : FsTree :=
  FsTree.dir [("Proj", FsTree.dir
    [("Inc", FsTree.dir []), ("Src", FsTree.dir []), ("Core", FsTree.dir [])])]

/-! ### Helper lemmas -/

theorem startsWithL_mem {s p : List Char} (h : startsWithL s p = true) :
    ∀ c ∈ p, c ∈ s := by
  induction p generalizing s with
  | nil => simp
  | cons b bs ih =>
    cases s with
    | nil => simp [startsWithL] at h
    | cons a as =>
      simp only [startsWithL, Bool.and_eq_true, decide_eq_true_eq] at h
      intro c hc
      rcases List.mem_cons.mp hc with hc | hc
      · subst hc; exact h.1 ▸ List.mem_cons_self _ _
      · exact List.mem_cons_of_mem _ (ih h.2 c hc)

theorem containsSub_mem {s p : List Char} (h : containsSub s p = true) :
    ∀ c ∈ p, c ∈ s := by
  induction s with
  | nil =>
    simp only [containsSub, List.isEmpty_iff] at h
    subst h; simp
  | cons a as ih =>
    simp only [containsSub, Bool.or_eq_true] at h
    rcases h with h | h
    · exact startsWithL_mem h
    · exact fun c hc => List.mem_cons_of_mem _ (ih h c hc)

theorem endsWithL_mem {s p : List Char} (h : endsWithL s p = true) :
    ∀ c ∈ p, c ∈ s := by
  intro c hc
  have := startsWithL_mem h c (List.mem_reverse.mpr hc)
  exact List.mem_reverse.mp this

theorem lowerChar_eq_slash {c : Char} (h : lowerChar c = '/') : c = '/' := by
  unfold lowerChar at h
  split at h <;> simp_all

theorem lookup_append (as bs : List String) (t : FsTree) :
    FsTree.lookup (as ++ bs) t = (FsTree.lookup as t).bind (FsTree.lookup bs) := by
  induction as generalizing t with
  | nil => simp [FsTree.lookup]
  | cons a as ih =>
    cases t with
    | file c => simp [FsTree.lookup]
    | dir es =>
      simp only [List.cons_append, FsTree.lookup]
      cases findEntry es a with
      | none => simp
      | some t2 => simp [ih]

theorem snd_mem_of_mem_enumFrom {α : Type} :
    ∀ (l : List α) (n : Nat) (p : Nat × α), p ∈ l.enumFrom n → p.2 ∈ l := by
  intro l
  induction l with
  | nil => simp [List.enumFrom]
  | cons a as ih =>
    intro n p hp
    simp only [List.enumFrom, List.mem_cons] at hp
    rcases hp with hp | hp
    · subst hp; simp
    · exact List.mem_cons_of_mem _ (ih (n + 1) p hp)

theorem mem_of_mem_dedupById {l : List BoardInfo} {b : BoardInfo}
    (h : b ∈ dedupById l) : b ∈ l := by
  unfold dedupById at h
  rcases List.mem_map.mp h with ⟨p, hp, hpb⟩
  have := snd_mem_of_mem_enumFrom l 0 p (List.mem_filter.mp hp).1
  exact hpb ▸ this

theorem scanForBoards_name {t : FsTree} {base : List String} {b : BoardInfo}
    (h : b ∈ scanForBoards t base) : b.name = formatBoardName b.id := by
  unfold scanForBoards at h
  rcases List.mem_filterMap.mp h with ⟨e, _, hfe⟩
  by_cases hd : e.2.isDir = true
  · rw [if_pos hd] at hfe
    unfold analyzeBoardDirectory at hfe
    by_cases hq : hasProjectsInDirectory e.2 = true
    · rw [if_pos hq] at hfe
      cases hfe
      rfl
    · rw [if_neg hq] at hfe
      cases hfe
  · rw [if_neg hd] at hfe
    cases hfe

theorem analyzeBoardDirectory_mcu {t : FsTree} {dirPath : List String}
    {n : String} {b : BoardInfo} (h : analyzeBoardDirectory t dirPath n = some b) :
    b.mcu = (extractMcuInfo t).getD "STM32" := by
  unfold analyzeBoardDirectory at h
  by_cases hq : hasProjectsInDirectory t = true
  · rw [if_pos hq] at h
    cases h
    rfl
  · rw [if_neg hq] at h
    cases h

theorem hasProjectsInCategory_eq (t : FsTree) :
    hasProjectsInCategory t =
      ((t.entriesD.filter fun e => e.2.isDir).take 3).any fun e =>
        hasProjectFiles e.2 := by
  unfold hasProjectsInCategory
  cases he : (t.entriesD.filter fun e => e.2.isDir).isEmpty with
  | true =>
    rw [List.isEmpty_iff] at he
    rw [he]
    simp
  | false => simp

theorem hasProjectsInCategory_iff (t : FsTree) :
    hasProjectsInCategory t = true ↔
      ∃ p ∈ (t.entriesD.filter fun e => e.2.isDir).take 3,
        hasProjectFiles p.2 = true := by
  rw [hasProjectsInCategory_eq, List.any_eq_true]

theorem hasProjectsInDirectory_eq (t : FsTree) :
    hasProjectsInDirectory t =
      ((t.entriesD.filter fun e => e.2.isDir && boardCategories.contains e.1).take 2).any
        fun e => hasProjectsInCategory e.2 := by
  unfold hasProjectsInDirectory
  cases he : (t.entriesD.filter fun e => e.2.isDir && boardCategories.contains e.1).isEmpty with
  | true =>
    rw [List.isEmpty_iff] at he
    rw [he]
    simp
  | false => simp

theorem hasProjectsInDirectory_iff (t : FsTree) :
    hasProjectsInDirectory t = true ↔
      ∃ c ∈ (t.entriesD.filter fun e => e.2.isDir && boardCategories.contains e.1).take 2,
        ∃ p ∈ (c.2.entriesD.filter fun e => e.2.isDir).take 3,
          hasProjectFiles p.2 = true := by
  rw [hasProjectsInDirectory_eq, List.any_eq_true]
  exact exists_congr fun c => and_congr_right fun _ => hasProjectsInCategory_iff c.2

theorem hasMatchingFile_Makefile_iff (t : FsTree) :
    hasMatchingFile t "Makefile" = true ↔ ∃ e ∈ t.entriesD, e.1 = "Makefile" := by
  unfold hasMatchingFile
  have hstar : ("Makefile".data.contains '*') = false := by decide
  rw [hstar]
  simp only [Bool.false_eq_true, if_false, List.any_eq_true, List.mem_map]
  constructor
  · rintro ⟨f, ⟨e, he, rfl⟩, hf⟩
    exact ⟨e, he, by simpa using hf⟩
  · rintro ⟨e, he, hf⟩
    exact ⟨e.1, ⟨e, he, rfl⟩, by simpa using hf⟩

theorem gcc_mem_filterMap_iff (t : FsTree) :
    "GCC" ∈ (toolchainFiles.filterMap fun tc =>
        if hasMatchingFile t tc.1 then some tc.2 else none) ↔
      hasMatchingFile t "Makefile" = true := by
  simp only [List.mem_filterMap, toolchainFiles, List.mem_cons, List.not_mem_nil, or_false]
  constructor
  · rintro ⟨a, ha, hfa⟩
    rcases ha with rfl | rfl | rfl | rfl | rfl <;> (split at hfa <;> simp_all)
  · intro h
    exact ⟨("Makefile", "GCC"), by simp, by simp [h]⟩

theorem gcc_mem_detect_iff (t : FsTree) :
    "GCC" ∈ detectToolchains t ↔ hasMatchingFile t "Makefile" = true := by
  unfold detectToolchains
  cases hl : (toolchainFiles.filterMap fun tc =>
      if hasMatchingFile t tc.1 then some tc.2 else none).isEmpty with
  | true =>
    have hnil := List.isEmpty_iff.mp hl
    constructor
    · intro h
      rw [if_pos rfl] at h
      have hg : "GCC" = "Generic" := List.mem_singleton.mp h
      exact absurd hg (by decide)
    · intro h
      exact absurd ((gcc_mem_filterMap_iff t).mpr h)
        (by rw [hnil]; exact List.not_mem_nil _)
  | false =>
    rw [if_neg (by simp [hl])]
    exact gcc_mem_filterMap_iff t

theorem detectToolchains_ne_nil (t : FsTree) : detectToolchains t ≠ [] := by
  unfold detectToolchains
  cases hl : (toolchainFiles.filterMap fun tc =>
      if hasMatchingFile t tc.1 then some tc.2 else none).isEmpty with
  | true => simp
  | false =>
    rw [if_neg (by simp [hl])]
    intro h
    rw [h] at hl
    simp at hl

theorem indMatches_slash_free {name : List Char} (ind : String)
    (hs : '/' ∈ ind.data) (hn : '/' ∉ name) : indMatches ⟨name⟩ ind = false := by
  unfold indMatches strContains strEndsWith
  rw [Bool.or_eq_false_iff, Bool.or_eq_false_iff]
  refine ⟨⟨?_, ?_⟩, ?_⟩
  · exact Bool.eq_false_iff.mpr fun h => hn (containsSub_mem h '/' hs)
  · exact Bool.eq_false_iff.mpr fun h => hn (endsWithL_mem h '/' hs)
  · refine Bool.eq_false_iff.mpr fun h => ?_
    have hsl : '/' ∈ lowerList ind.data :=
      List.mem_map.mpr ⟨'/', hs, rfl⟩
    have h2 : '/' ∈ lowerList name := containsSub_mem h '/' hsl
    rcases List.mem_map.mp h2 with ⟨d, hd, hld⟩
    exact hn (lowerChar_eq_slash hld ▸ hd)

theorem hasProjectFiles_onlyDirs (t : FsTree)
    (ht : ∀ e ∈ t.entriesD, e.1 ∈ (["Inc", "Src", "Core"] : List String)) :
    hasProjectFiles t = false := by
  unfold hasProjectFiles
  refine Bool.eq_false_iff.mpr fun h => ?_
  rcases List.any_eq_true.mp h with ⟨f, hf, hfind⟩
  rcases List.mem_map.mp hf with ⟨e, he, rfl⟩
  have h3 := ht e he
  rcases List.any_eq_true.mp hfind with ⟨ind, hind, hm⟩
  simp only [projectIndicators, List.mem_cons, List.not_mem_nil, or_false] at hind
  simp only [List.mem_cons, List.not_mem_nil, or_false] at h3
  rcases h3 with h3 | h3 | h3 <;>
    rcases hind with rfl | rfl | rfl | rfl | rfl | rfl | rfl | rfl | rfl | rfl | rfl <;>
      rw [h3] at hm <;> exact absurd hm (by decide)

theorem hasProjectsInCategory_onlyDirs (c : FsTree)
    (hc : ∀ e ∈ c.entriesD, ∀ e2 ∈ e.2.entriesD,
      e2.1 ∈ (["Inc", "Src", "Core"] : List String)) :
    hasProjectsInCategory c = false := by
  rw [hasProjectsInCategory_eq]
  refine Bool.eq_false_iff.mpr fun h => ?_
  rcases List.any_eq_true.mp h with ⟨p, hp, hpf⟩
  have hp2 : p ∈ c.entriesD.filter fun e => e.2.isDir := List.mem_of_mem_take hp
  have hp3 : p ∈ c.entriesD := (List.mem_filter.mp hp2).1
  have hzero := hasProjectFiles_onlyDirs p.2 fun e2 he2 => hc p hp3 e2 he2
  rw [hzero] at hpf
  cases hpf

/-! ### Claim theorems -/

/-- C1 counterexample: in a package whose only candidate
`Projects/B/Examples/Foo` contains nothing but `notes.txt` — an entry
matching no project-file indicator, as witnessed by
`hasProjectFiles fooDir = false` — `getProjectsForBoard` still surfaces
`Examples/Foo` (with toolchain `Generic`), so a candidate directory
failing the project-file probe is not excluded from the returned list. -/
theorem c1_counterexample :
    getProjectsForBoard fsC1 "B" =
      [{ name := "Examples/Foo", description := "Examples: STM32 Project: Foo",
         path := ["Projects", "B", "Examples", "Foo"], toolchain := ["Generic"] }] ∧
    hasProjectFiles fooDir = false := by
  constructor
  · rfl
  · rfl

/-- C1 (amended): `getProjectsForBoard` surfaces every immediate
subdirectory of every existing category folder under
`Projects/boardId`, regardless of the project-file probe; the probe
(`hasProjectFiles`) is applied only during board qualification.  A
subdirectory with no matching entry is surfaced too, with toolchain set
`{Generic}`. -/
theorem c1_every_subdir_surfaced
    (fs : FsTree) (boardId cat n : String) (catTree sub : FsTree)
    (hcat : cat ∈ projectCategories)
    (hlook : FsTree.lookup ["Projects", boardId, cat] fs = some catTree)
    (hmem : (n, sub) ∈ catTree.entriesD)
    (hdir : sub.isDir = true) :
    ({ name := cat ++ "/" ++ formatProjectName n,
       description := cat ++ ": " ++ ("STM32 Project: " ++ formatProjectName n),
       path := ["Projects", boardId, cat, n],
       toolchain := detectToolchains sub } : ProjectInfo) ∈
      getProjectsForBoard fs boardId := by
  have h1 : FsTree.lookup (["Projects", boardId] ++ [cat]) fs = some catTree := hlook
  have h2 := h1
  rw [lookup_append] at h2
  have hpe : pathExists fs ["Projects", boardId] = true := by
    unfold pathExists
    cases hb : FsTree.lookup ["Projects", boardId] fs with
    | none => rw [hb] at h2; simp [Option.bind] at h2
    | some u => rfl
  unfold getProjectsForBoard
  rw [if_pos hpe]
  refine List.mem_flatMap.mpr ⟨cat, hcat, ?_⟩
  rw [h1]
  refine List.mem_map.mpr
    ⟨analyzeProjectDirectory sub (["Projects", boardId] ++ [cat] ++ [n]) n, ?_, rfl⟩
  unfold scanForProjects
  exact List.mem_filterMap.mpr ⟨(n, sub), hmem, by rw [if_pos hdir]⟩

/-- C1 witness: the amended statement applied to the concrete package
`fsC1`, where `Foo` fails the probe and is surfaced anyway. -/
theorem c1_every_subdir_surfaced_witness :
    ({ name := "Examples" ++ "/" ++ formatProjectName "Foo",
       description := "Examples" ++ ": " ++ ("STM32 Project: " ++ formatProjectName "Foo"),
       path := ["Projects", "B", "Examples", "Foo"],
       toolchain := detectToolchains fooDir } : ProjectInfo) ∈
      getProjectsForBoard fsC1 "B" :=
  c1_every_subdir_surfaced fsC1 "B" "Examples" "Foo"
    (FsTree.dir [("Foo", fooDir)]) fooDir (by decide) (by rfl)
    (List.mem_singleton.mpr rfl) (by rfl)

/-- C2 counterexample: in `fsC2` the package has no `Projects` root, so
board `B` is discovered through the fallback root `Examples` (first
conjunct), yet `getProjectsForBoard` returns the empty list for it even
though the fallback-mode board path `Examples/B` exists with a
qualifying project — the function never computes a fallback-mode
equivalent of the board path. -/
theorem c2_counterexample :
    getAvailableBoards fsC2 = [boardB] ∧
    FsTree.lookup ["Projects", "B"] fsC2 = none ∧
    (FsTree.lookup ["Examples", "B"] fsC2).isSome = true ∧
    getProjectsForBoard fsC2 "B" = [] := by
  refine ⟨?_, ?_, ?_, ?_⟩ <;> rfl

/-- C2 (amended): `getProjectsForBoard` always computes the board path as
`packagePath/Projects/boardId`, even for boards discovered via the
fallback category roots; when that path does not exist it returns an
empty list rather than an error. -/
theorem c2_missing_board_path_empty (fs : FsTree) (boardId : String)
    (h : FsTree.lookup ["Projects", boardId] fs = none) :
    getProjectsForBoard fs boardId = [] := by
  have hpe : ¬ pathExists fs ["Projects", boardId] = true := by
    unfold pathExists
    rw [h]
    simp
  unfold getProjectsForBoard
  rw [if_neg hpe]

/-- C2 witness: the amended statement applied to `fsC2` and board `B`. -/
theorem c2_missing_board_path_empty_witness :
    getProjectsForBoard fsC2 "B" = [] :=
  c2_missing_board_path_empty fsC2 "B" (by rfl)

/-- C3: evaluation of the code at the failing input.  The panel invokes
`importProject` with an explicit source path `Else/Proj` that exists
(second conjunct), yet the engine — whose parameter list stops after
`projectName`, so the argument is dropped — re-probes the three standard
locations, finds none, and fails with the project-not-found error
instead of using the supplied path directly. -/
theorem c3_explicit_source_ignored :
    importProjectCall fsImp2 "B" "P" (some "loc") none (some ["Else", "Proj"])
        (some ["dlg"]) =
      Except.error "Failed to import project: Error: Project P not found for board B" ∧
    (FsTree.lookup ["Else", "Proj"] fsImp2).isSome = true := by
  constructor
  · rfl
  · rfl

/-- C4: evaluation of the code at the failing input.  With a supplied
target name `MyApp` and caller-chosen location `loc`, the returned path
is the dialog-chosen folder joined with the raw project identifier
(`dlg/P`), not `destination/targetName`: the `targetName` and `location`
arguments are dropped by the engine's three-parameter signature. -/
theorem c4_target_name_ignored :
    importProjectCall fsImp "B" "P" (some "loc") (some "MyApp") none
        (some ["dlg"]) =
      Except.ok { source := ["Projects", "B", "P"], target := ["dlg", "P"] } ∧
    (["dlg", "P"] : List String) ≠ ["dlg", "MyApp"] := by
  constructor
  · rfl
  · decide

/-- C5 counterexample: when the XML parser reports a parse error on the
descriptor content, `analyzePackage` propagates it as a wrapped
analysis failure — it does not silently fall back to directory-name
inference (which would return `Except.ok` with name `MyPack`). -/
theorem c5_counterexample :
    analyzePackage parsersErr fsDescr ["MyPack"] =
      Except.error "Failed to analyze package: Error: Non-whitespace before first tag." := by
  rfl

/-- C5 (amended): the silent fallback to directory-name inference happens
when the descriptor parses as XML but the expected structure is missing
(the chosen node carries no attribute object, so member access throws);
an XML parse failure itself is instead propagated to the caller,
wrapped as a package-analysis failure. -/
theorem c5_shape_fallback_parse_error_propagates :
    (∀ (P : Parsers) (es : List (String × FsTree)) (pkgPath : List String)
       (f content : String) (r : XmlParsed),
       findPackageDescriptor (FsTree.dir es) = some f →
       readFileAt (FsTree.dir es) [f] = Except.ok content →
       strEndsWith f ".json" = false →
       (strEndsWith f ".pdsc" || strEndsWith f ".xml") = true →
       P.xml content = Except.ok r →
       (r.package.getD r.root).attrs = none →
       analyzePackage P (FsTree.dir es) pkgPath =
         Except.ok { name := basenameOf pkgPath, version := "1.0.0",
                     path := pkgPath, description := none }) ∧
    (∀ (P : Parsers) (es : List (String × FsTree)) (pkgPath : List String)
       (f content e : String),
       findPackageDescriptor (FsTree.dir es) = some f →
       readFileAt (FsTree.dir es) [f] = Except.ok content →
       strEndsWith f ".json" = false →
       (strEndsWith f ".pdsc" || strEndsWith f ".xml") = true →
       P.xml content = Except.error e →
       analyzePackage P (FsTree.dir es) pkgPath =
         Except.error ("Failed to analyze package: " ++ e)) := by
  constructor
  · intro P es pkgPath f content r hfind hread hjson hext hxml hattrs
    have hp : parsePackageDescriptor P pkgPath f content =
        Except.ok { name := basenameOf pkgPath, version := "1.0.0",
                    path := pkgPath, description := none } := by
      unfold parsePackageDescriptor extractPackageInfo
      simp [hjson, hext, hxml, hattrs]
    unfold analyzePackage
    simp only [hfind, hread, hp]
  · intro P es pkgPath f content e hfind hread hjson hext hxml
    have hp : parsePackageDescriptor P pkgPath f content = Except.error e := by
      unfold parsePackageDescriptor
      simp [hjson, hext, hxml]
    unfold analyzePackage
    simp only [hfind, hread, hp]

/-- C5 witness: the fallback half of the amended statement applied to a
concrete descriptor that parses as XML into a node without attributes:
the result is the directory-name fallback record. -/
theorem c5_shape_fallback_witness :
    analyzePackage parsersBadShape fsDescr ["MyPack"] =
      Except.ok { name := "MyPack", version := "1.0.0", path := ["MyPack"],
                  description := none } :=
  c5_shape_fallback_parse_error_propagates.1 parsersBadShape
    [("package.xml", FsTree.file (some "<bad"))] ["MyPack"] "package.xml" "<bad"
    { package := none, root := { attrs := none, description := [] } }
    (by rfl) (by rfl) (by rfl) (by rfl) (by rfl) (by rfl)

/-- C6: a candidate directory qualifies as a board (its
`analyzeBoardDirectory` result is non-null, so it is kept by
`scanForBoards`; disqualified candidates yield `none` and are dropped
silently) if and only if, among the first 2 of its immediate
subdirectories named exactly `Examples`/`Applications`/`Demonstrations`/
`Templates`, some category has, among its first 3 subdirectories, one
passing the project-file probe `hasProjectFiles`. -/
theorem c6_board_qualification (t : FsTree) (dirPath : List String) (n : String) :
    (analyzeBoardDirectory t dirPath n).isSome = true ↔
      ∃ c ∈ (t.entriesD.filter fun e => e.2.isDir && boardCategories.contains e.1).take 2,
        ∃ p ∈ (c.2.entriesD.filter fun e => e.2.isDir).take 3,
          hasProjectFiles p.2 = true := by
  rw [← hasProjectsInDirectory_iff]
  unfold analyzeBoardDirectory
  cases hq : hasProjectsInDirectory t with
  | true => simp
  | false => simp

/-- C7 counterexample: the name `makefile` matches the glob `Makefile`
case-insensitively (second conjunct: both lower-case to the same
string), yet the engine detects no toolchain for a directory containing
only `makefile` — the starless pattern is compared with exact,
case-sensitive equality, so the result is `{Generic}`, not `{GCC}`. -/
theorem c7_counterexample :
    detectToolchains (FsTree.dir [("makefile", emptyFile)]) = ["Generic"] ∧
    lowerStr "makefile" = lowerStr "Makefile" := by
  constructor
  · rfl
  · rfl

/-- C7 (amended): toolchain detection tests each table pattern against
the immediate entry names, where a pattern containing `*` is applied as
a case-insensitive unanchored regular expression with `*` replaced by
`.*` (substring search, `.` matching any character), while the starless
pattern `Makefile` requires exact, case-sensitive name equality
(second conjunct).  `Makefile` together with `project.uvprojx` yields
`{Keil, GCC}`, a directory matching no pattern yields `{Generic}`, and
the set is never empty (first conjunct). -/
theorem c7_toolchain_detection :
    (∀ t : FsTree, detectToolchains t ≠ []) ∧
    (∀ t : FsTree, "GCC" ∈ detectToolchains t ↔ ∃ e ∈ t.entriesD, e.1 = "Makefile") ∧
    detectToolchains (FsTree.dir [("Makefile", emptyFile), ("project.uvprojx", emptyFile)]) =
      ["Keil", "GCC"] ∧
    detectToolchains (FsTree.dir [("notes.txt", emptyFile)]) = ["Generic"] := by
  refine ⟨detectToolchains_ne_nil, ?_, ?_, ?_⟩
  · exact fun t => (gcc_mem_detect_iff t).trans (hasMatchingFile_Makefile_iff t)
  · rfl
  · rfl

/-- C8: every board surfaced by `getAvailableBoards` carries a display
name produced from its raw id by `formatBoardName` — the pipeline of
dash/underscore replacement, camel-case splitting, word capitalization,
whitespace collapsing, trimming, and the NUCLEO/DISCO/EVAL literal
substitutions — and in particular `NUCLEO-U575ZI-Q` formats to
`NUCLEO- U575ZI Q`. -/
theorem c8_display_name :
    (∀ (fs : FsTree) (b : BoardInfo), b ∈ getAvailableBoards fs →
       b.name = formatBoardName b.id) ∧
    formatBoardName "NUCLEO-U575ZI-Q" = "NUCLEO- U575ZI Q" := by
  constructor
  · intro fs b hb
    unfold getAvailableBoards at hb
    have hb2 := mem_of_mem_dedupById hb
    by_cases hp : pathExists fs ["Projects"] = true
    · rw [if_pos hp] at hb2
      cases hl : FsTree.lookup ["Projects"] fs with
      | none => rw [hl] at hb2; cases hb2
      | some t => rw [hl] at hb2; exact scanForBoards_name hb2
    · rw [if_neg hp] at hb2
      rcases List.mem_flatMap.mp hb2 with ⟨c, _, hc⟩
      cases hl : FsTree.lookup [c] fs with
      | none => rw [hl] at hc; cases hc
      | some t => rw [hl] at hc; exact scanForBoards_name hc
  · rfl

/-- C8 witness: the first half applied to the concrete package `fsC2`
and its surfaced board. -/
theorem c8_display_name_witness : boardB.name = formatBoardName boardB.id :=
  c8_display_name.1 fsC2 boardB (by decide)

/-- C9 counterexample: in `fsC9` board `B` qualifies but has no `.h` or
`.ioc` file, so MCU extraction finds nothing (second conjunct); the
surfaced board record nevertheless carries the defined value
`mcu = "STM32"` — the field is defaulted, not left undefined. -/
theorem c9_counterexample :
    getAvailableBoards fsC9 = [boardB] ∧ extractMcuInfo bDir9 = none := by
  constructor
  · rfl
  · rfl

/-- C9 (amended): for every qualifying board the surfaced `mcu` field
equals the result of `extractMcuInfo` — the upper-cased first
case-insensitive `STM32<letter><digits>` match over the readable
`.h`/`.ioc` files directly under the board directory, per-file read
errors skipped — with the default `"STM32"` substituted when no match
was found.  The second conjunct evaluates the scan on a directory where
a non-`.h` file with a match is ignored, an unreadable `.h` file is
skipped, and the first readable `.h` match wins over a later `.ioc`. -/
theorem c9_mcu_extraction :
    (∀ (t : FsTree) (dirPath : List String) (n : String) (b : BoardInfo),
       analyzeBoardDirectory t dirPath n = some b →
       b.mcu = (extractMcuInfo t).getD "STM32") ∧
    extractMcuInfo mcuSample = some "STM32U575" := by
  constructor
  · intro t dirPath n b h
    exact analyzeBoardDirectory_mcu h
  · rfl

/-- C9 witness: the first half applied to the concrete board directory
`bDir9`, whose analysis yields `boardB`. -/
theorem c9_mcu_extraction_witness :
    boardB.mcu = (extractMcuInfo bDir9).getD "STM32" :=
  c9_mcu_extraction.1 bDir9 ["Projects", "B"] "B" boardB (by rfl)

/-- C10: the indicators `Inc/`, `Src/`, `Core/` of the project-file probe
can never match a directory-listing entry name, because each contains a
slash and entry names do not (first conjunct, for any slash-free name);
hence a candidate directory whose immediate entries are named only
`Inc`, `Src`, `Core` is judged by `hasProjectFiles` to contain no
project files (second conjunct), and a category all of whose candidates
look like that cannot pass `hasProjectsInCategory`, so it cannot
qualify its board (third conjunct). -/
theorem c10_dir_indicators_never_match :
    (∀ name : List Char, '/' ∉ name →
       indMatches ⟨name⟩ "Inc/" = false ∧ indMatches ⟨name⟩ "Src/" = false ∧
       indMatches ⟨name⟩ "Core/" = false) ∧
    (∀ t : FsTree,
       (∀ e ∈ t.entriesD, e.1 ∈ (["Inc", "Src", "Core"] : List String)) →
       hasProjectFiles t = false) ∧
    (∀ c : FsTree,
       (∀ e ∈ c.entriesD, ∀ e2 ∈ e.2.entriesD,
         e2.1 ∈ (["Inc", "Src", "Core"] : List String)) →
       hasProjectsInCategory c = false) := by
  refine ⟨?_, hasProjectFiles_onlyDirs, hasProjectsInCategory_onlyDirs⟩
  intro name hn
  exact ⟨indMatches_slash_free "Inc/" (by decide) hn,
         indMatches_slash_free "Src/" (by decide) hn,
         indMatches_slash_free "Core/" (by decide) hn⟩

/-- C10 witness: the third conjunct applied to a concrete category whose
single candidate contains only `Inc`, `Src`, `Core`, plus the first
conjunct at the concrete name `Inc`. -/
theorem c10_dir_indicators_witness :
    hasProjectsInCategory catOnlyDirs = false ∧
    indMatches ⟨"Inc".data⟩ "Inc/" = false := by
  constructor
  · exact c10_dir_indicators_never_match.2.2 catOnlyDirs (by decide)
  · exact (c10_dir_indicators_never_match.1 "Inc".data (by decide)).1

end PkgMgr
